import Mathlib

/-!
# Verification of the practice-bidding auction core (`robot_bidding.py`)

Shallow embedding of the auction engine of `practice_bidding/robot_bidding.py`:
seats, vulnerability cycling, pass-out detection, legal-bid resolution, the
automatic bid selector, the turn engine and the contract resolver, together
with theorems settling the specification's claims about them.

Hands are opaque to this core (they are only consulted through acceptance
predicates), so every definition is polymorphic in a type `Hand`.
-/

/-- Bridge players at the table, named after the cardinal directions
(`BiddingProgram.Players`). -/
inductive Players where
  | North
  | East
  | South
  | West
deriving DecidableEq, Repr

/-- Possible vulnerabilities (`BiddingProgram.Vulnerability`).  `None_`
mirrors the Python spelling, which avoids the keyword `None`. -/
inductive Vulnerability where
  | None_
  | Favourable
  | All
  | Unfavourable
deriving DecidableEq, Repr

/-- Possible modes for the program to run in (`BiddingProgram.ProgramMode`). -/
inductive ProgramMode where
  | Default
  | Automatic
deriving DecidableEq, Repr

/-- Denominations a bid can name.  Modelled from the spec: the `Bid` class
lives in `practice_bidding/xml_parsing/xml_parser.py`, which is not part of
the sources here; §3 of the spec says a non-pass bid carries a denomination
("suit" in the broad sense, including the no-trump denomination). -/
inductive Suit where
  | clubs
  | diamonds
  | hearts
  | spades
  | notrump
deriving DecidableEq, Repr

/-- A bid-tree node.  Modelled from the spec: the `Bid` class is external to
the given sources; §3 of the spec says a node owns a display value, a
description, a denomination, an acceptance predicate over a hand, and a
token-keyed mapping of child nodes (here an association list, preserving the
insertion order of the Python `dict`). -/
inductive BidNode (Hand : Type) where
  | mk (value : String) (description : String) (suit : Suit)
       (accept : Hand → Bool) (children : List (String × BidNode Hand))

/-- Display value of a bid node. -/
def BidNode.value {Hand : Type} : BidNode Hand → String
  | .mk v _ _ _ _ => v

/-- Denomination of a bid node. -/
def BidNode.suit {Hand : Type} : BidNode Hand → Suit
  | .mk _ _ s _ _ => s

/-- Acceptance predicate of a bid node. -/
def BidNode.accept {Hand : Type} : BidNode Hand → Hand → Bool
  | .mk _ _ _ a _ => a

/-- Child mapping of a bid node. -/
def BidNode.children {Hand : Type} : BidNode Hand → List (String × BidNode Hand)
  | .mk _ _ _ _ c => c

/-- A call of the auction.  Modelled from the spec (§3): a call is either the
distinguished Pass token (`BiddingProgram._pass` in the source, a fixed
sentinel object compared against by identity/token) or a bid-tree node. -/
inductive Call (Hand : Type) where
  | pass
  | bid (b : BidNode Hand)

/-- Whether a call is the distinguished Pass (the source's `bid == cls._pass`
comparison). -/
def Call.isPass {Hand : Type} : Call Hand → Bool
  | .pass => true
  | .bid _ => false

/-- `BiddingProgram.vulnerability`: the vulnerability of a board, determined
by the board number modulo 16 through four membership tests.  The Python
`if/elif` chain has no final `else`, so the translation returns an `Option`;
the residue sets in fact cover every case. -/
def vulnerability (board_number : Nat) : Option Vulnerability :=
  let b := board_number % 16
  if b = 1 ∨ b = 8 ∨ b = 11 ∨ b = 14 then some .None_
  else if b = 2 ∨ b = 5 ∨ b = 12 ∨ b = 15 then some .Unfavourable
  else if b = 3 ∨ b = 6 ∨ b = 9 ∨ b = 0 then some .Favourable
  else if b = 4 ∨ b = 7 ∨ b = 10 ∨ b = 13 then some .All
  else none

/-- `BiddingProgram._dealer_map`: residue of the board number modulo 4 to the
dealing player (`{1: North, 2: East, 3: South, 0: West}`).  The argument is
always reduced modulo 4 before lookup, so the final branch is exactly the
key `0`. -/
def dealerMap (r : Nat) : Players :=
  if r = 1 then .North
  else if r = 2 then .East
  else if r = 3 then .South
  else .West

/-- `BiddingProgram._bidder`: the player holding turn index `shift` on the
given board, `_dealer_map[(board_number + shift) % 4]`.  The shift is an
integer because the contract resolver calls `_bidder(index - 2)`; Python's
`%` with a positive modulus agrees with `Int.emod`. -/
def bidderAt (board_number : Nat) (shift : Int) : Players :=
  dealerMap (((board_number : Int) + shift) % 4).toNat

/-- `BiddingProgram.is_passed_out`: a sequence is a passout iff it has at
least 4 calls and the last three (`bidding_sequence[-3:]`) are all Pass. -/
def isPassedOut {Hand : Type} (bidding_sequence : List (Call Hand)) : Bool :=
  if bidding_sequence.length < 4 then false
  else (bidding_sequence.drop (bidding_sequence.length - 3)).all Call.isPass

/-- `isPass` holds exactly on the Pass constructor. -/
theorem Call.isPass_iff {Hand : Type} (c : Call Hand) :
    c.isPass = true ↔ c = Call.pass := by
  cases c <;> simp [Call.isPass]

/-- If a sequence is passed out it has at least four calls. -/
theorem isPassedOut_length {Hand : Type} (seq : List (Call Hand))
    (h : isPassedOut seq = true) : 4 ≤ seq.length := by
  unfold isPassedOut at h
  by_contra hlen
  simp [Nat.lt_of_not_le hlen] at h

/-- C3: `is_passed_out` returns true iff the sequence has length at least 4
and its last three entries are all Pass; a sequence of exactly three Passes
is not terminal. -/
theorem is_passed_out_characterisation :
    (∀ (Hand : Type) (seq : List (Call Hand)),
      isPassedOut seq = true ↔
        4 ≤ seq.length ∧
        seq[seq.length - 3]? = some Call.pass ∧
        seq[seq.length - 2]? = some Call.pass ∧
        seq[seq.length - 1]? = some Call.pass) ∧
    isPassedOut ([Call.pass, Call.pass, Call.pass] : List (Call Unit)) = false := by
  constructor
  · intro Hand seq
    unfold isPassedOut
    by_cases hlen : seq.length < 4
    · simp only [hlen, if_true]
      constructor
      · intro h; exact absurd h (by simp)
      · intro h; omega
    · simp only [hlen, if_false]
      have h4 : 4 ≤ seq.length := Nat.le_of_not_lt hlen
      have hdlen : (seq.drop (seq.length - 3)).length = 3 := by
        simp [List.length_drop]; omega
      obtain ⟨a, b, c, habc⟩ := List.length_eq_three.mp hdlen
      have hget : ∀ i : Nat, i < 3 →
          seq[seq.length - 3 + i]? = (seq.drop (seq.length - 3))[i]? := by
        intro i _
        rw [List.getElem?_drop]
      have h0 : seq[seq.length - 3]? = some a := by
        have := hget 0 (by omega); simpa [habc] using this
      have h1 : seq[seq.length - 2]? = some b := by
        have := hget 1 (by omega)
        have heq : seq.length - 3 + 1 = seq.length - 2 := by omega
        rw [heq] at this; simpa [habc] using this
      have h2 : seq[seq.length - 1]? = some c := by
        have := hget 2 (by omega)
        have heq : seq.length - 3 + 2 = seq.length - 1 := by omega
        rw [heq] at this; simpa [habc] using this
      rw [habc]
      simp only [List.all_cons, List.all_nil, Bool.and_eq_true, Bool.and_true,
        h0, h1, h2, Call.isPass_iff]
      constructor
      · rintro ⟨ha, hb, hc⟩
        exact ⟨h4, by rw [ha], by rw [hb], by rw [hc]⟩
      · rintro ⟨-, ha, hb, hc⟩
        exact ⟨by injection ha, by injection hb, by injection hc⟩
  · rfl

/-- C10: the vulnerability of board `n` is determined by `n % 16` through the
partition `{1,8,11,14} → None`, `{2,5,12,15} → Unfavourable`,
`{3,6,9,0} → Favourable`, `{4,7,10,13} → All`; the four residue sets
partition `0..15`, and the cycle has period 16. -/
theorem vulnerability_cycle :
    (∀ n : Nat, vulnerability n = vulnerability (n + 16)) ∧
    (∀ n : Nat,
      (n % 16 ∈ [1, 8, 11, 14] → vulnerability n = some .None_) ∧
      (n % 16 ∈ [2, 5, 12, 15] → vulnerability n = some .Unfavourable) ∧
      (n % 16 ∈ [3, 6, 9, 0] → vulnerability n = some .Favourable) ∧
      (n % 16 ∈ [4, 7, 10, 13] → vulnerability n = some .All)) ∧
    ((List.range 16).all fun r =>
      ([1, 8, 11, 14].count r + [2, 5, 12, 15].count r +
       [3, 6, 9, 0].count r + [4, 7, 10, 13].count r) = 1) = true := by
  refine ⟨?_, ?_, by decide⟩
  · intro n
    unfold vulnerability
    have : (n + 16) % 16 = n % 16 := by omega
    rw [this]
  · intro n
    have hlt : n % 16 < 16 := Nat.mod_lt _ (by omega)
    unfold vulnerability
    refine ⟨?_, ?_, ?_, ?_⟩ <;>
      · intro hmem
        simp only [List.mem_cons, List.not_mem_nil, or_false] at hmem
        rcases hmem with h | h | h | h <;> simp [h]

/-- Witness for `vulnerability_cycle` at concrete boards 1, 2, 3 and 4. -/
theorem vulnerability_cycle_witness :
    vulnerability 1 = some .None_ ∧ vulnerability 2 = some .Unfavourable ∧
    vulnerability 3 = some .Favourable ∧ vulnerability 4 = some .All :=
  ⟨(vulnerability_cycle.2.1 1).1 (by decide),
   ((vulnerability_cycle.2.1 2).2.1) (by decide),
   ((vulnerability_cycle.2.1 3).2.2.1) (by decide),
   ((vulnerability_cycle.2.1 4).2.2.2) (by decide)⟩

/-- Python's `str.upper()` on the ASCII display values used by bid tokens,
written character-wise so that concrete contracts evaluate. -/
def strUpper (s : String) : String := String.mk (s.data.map Char.toUpper)

/-- The seat-letter map used by `get_contract` (`player_map` in the source). -/
def playerMap : Players → String
  | .North => "N"
  | .East => "E"
  | .South => "S"
  | .West => "W"

/-- The backward declarer-inference loop of `get_contract`:
`for i in range(index - 2, -1, -4)` with body
`if partner_bid == pass: break; elif partner_bid.suit == suit: flag = True; break`,
entered at position `i`.  The result is `none` when the loop would read out of
range (Python's `IndexError`), `some flag` otherwise.  The loop continues to
`i - 4` exactly when `i - 4 ≥ 0`, i.e. when `4 ≤ i`. -/
def suitFirstLoop {Hand : Type} (seq : List (Call Hand)) (su : Suit) (i : Nat) :
    Option Bool :=
  match seq[i]? with
  | none => none
  | some Call.pass => some false
  | some (Call.bid b) =>
    if b.suit = su then some true
    else if h4 : i < 4 then some false
    else suitFirstLoop seq su (i - 4)
termination_by i
decreasing_by omega

/-- The value of `suit_bid_by_partner` computed by `get_contract`: the loop
`range(index - 2, -1, -4)` performs no iteration when `index < 2`, and
otherwise starts at `index - 2`. -/
def suitBidByPartnerFlag {Hand : Type} (seq : List (Call Hand)) (su : Suit)
    (index : Nat) : Option Bool :=
  if 2 ≤ index then suitFirstLoop seq su (index - 2) else some false

/-- The declarer-inference scan as the specification describes it, started at
an arbitrary position `i`: examine positions `i, i - 4, i - 8, …`, stop at the
first Pass encountered or at the start of the sequence, and succeed exactly
when some examined call has the requested denomination. -/
def suitFirstSpecFrom {Hand : Type} (seq : List (Call Hand)) (su : Suit)
    (i : Int) : Bool :=
  if _h : 0 ≤ i then
    match seq[i.toNat]? with
    | some (Call.bid b) => b.suit == su || suitFirstSpecFrom seq su (i - 4)
    | _ => false
  else false
termination_by (i + 4).toNat
decreasing_by omega

/-- `BiddingProgram.get_contract`: resolve the final contract of a terminal
auction.  The `assert self.is_passed_out(...)` is translated as an
`AssertionError` outcome; list accesses that would raise Python's
`IndexError` are translated as an `IndexError` outcome. -/
def getContract {Hand : Type} (board_number : Nat) (seq : List (Call Hand)) :
    Except String String :=
  if isPassedOut seq = false then .error "AssertionError"
  else
    match seq[seq.length - 4]? with
    | none => .error "IndexError"
    | some Call.pass => .ok "P"
    | some (Call.bid last_bid) =>
      let index := seq.length - 4
      match suitBidByPartnerFlag seq last_bid.suit index with
      | none => .error "IndexError"
      | some flag =>
        let bidder :=
          bidderAt board_number (if flag then (index : Int) - 2 else (index : Int))
        .ok (strUpper last_bid.value ++ playerMap bidder)

/-- The in-range declarer loop agrees with the specification-style scan
started at the same position. -/
theorem suitFirstLoop_eq_spec {Hand : Type} (seq : List (Call Hand)) (su : Suit) :
    ∀ i : Nat, i < seq.length →
      suitFirstLoop seq su i = some (suitFirstSpecFrom seq su (i : Int)) := by
  intro i
  induction i using Nat.strong_induction_on with
  | _ i ih =>
    intro hi
    rw [suitFirstLoop, suitFirstSpecFrom]
    rw [dif_pos (by omega : (0 : Int) ≤ (i : Int))]
    have htn : ((i : Int)).toNat = i := Int.toNat_natCast i
    rw [htn]
    cases hx : seq[i]? with
    | none =>
      exact absurd (List.getElem?_eq_getElem hi) (by simp [hx])
    | some c =>
      cases c with
      | pass => rfl
      | bid b =>
        by_cases hsu : b.suit = su
        · simp [hsu]
        · have hb : (b.suit == su) = false := by
            simp [hsu]
          simp only [if_neg hsu, hb, Bool.false_or]
          by_cases h4 : i < 4
          · rw [dif_pos h4]
            rw [suitFirstSpecFrom, dif_neg (by omega : ¬ (0 : Int) ≤ (i : Int) - 4)]
          · rw [dif_neg h4]
            have hrec := ih (i - 4) (by omega) (by omega)
            rw [hrec]
            have hcast : ((i - 4 : Nat) : Int) = (i : Int) - 4 := by omega
            rw [hcast]

/-- The `suit_bid_by_partner` flag never hits an out-of-range access for a
start index within the sequence, and equals the specification-style scan
started at position `index - 2`. -/
theorem suitBidByPartnerFlag_eq_spec {Hand : Type} (seq : List (Call Hand))
    (su : Suit) (index : Nat) (h : index ≤ seq.length) :
    suitBidByPartnerFlag seq su index =
      some (suitFirstSpecFrom seq su ((index : Int) - 2)) := by
  unfold suitBidByPartnerFlag
  by_cases h2 : 2 ≤ index
  · rw [if_pos h2]
    have hlt : index - 2 < seq.length := by omega
    rw [suitFirstLoop_eq_spec seq su (index - 2) hlt]
    have hcast : ((index - 2 : Nat) : Int) = (index : Int) - 2 := by omega
    rw [hcast]
  · rw [if_neg h2]
    rw [suitFirstSpecFrom, dif_neg (by omega : ¬ (0 : Int) ≤ (index : Int) - 2)]

/-- If the assert passed and the last real call is Pass, `get_contract`
returns the sentinel `"P"`. -/
theorem getContract_ok_of_pass {Hand : Type} (board_number : Nat)
    (seq : List (Call Hand)) (h : isPassedOut seq = true)
    (hp : seq[seq.length - 4]? = some Call.pass) :
    getContract board_number seq = Except.ok "P" := by
  unfold getContract
  rw [if_neg (by simp [h]), hp]

/-- If the assert passed and the last real call is a bid, `get_contract`
returns the uppercased display value of that bid followed by the seat letter
of the declarer chosen by the backward scan started at `index - 2`. -/
theorem getContract_ok_of_bid {Hand : Type} (board_number : Nat)
    (seq : List (Call Hand)) (b : BidNode Hand) (h : isPassedOut seq = true)
    (hb : seq[seq.length - 4]? = some (Call.bid b)) :
    getContract board_number seq =
      Except.ok (strUpper b.value ++ playerMap (bidderAt board_number
        (if suitFirstSpecFrom seq b.suit (((seq.length - 4 : Nat) : Int) - 2)
         then ((seq.length - 4 : Nat) : Int) - 2
         else ((seq.length - 4 : Nat) : Int)))) := by
  unfold getContract
  rw [if_neg (by simp [h]), hb]
  simp only
  rw [suitBidByPartnerFlag_eq_spec seq b.suit (seq.length - 4)
    (by omega : seq.length - 4 ≤ seq.length)]

/-- C1 (amended): on a pass-out-terminal auction whose last real bid (at
position `index = length - 4`) is not Pass, the declarer-inference scan
examines exactly the positions `index - 2, index - 6, …` (every 4th position
backward starting from `index - 2`, the partner's calls), stops at the first
Pass encountered or at the start of the sequence, and records that the
partner bid the suit first iff some scanned call has the same denomination
as the last bid. -/
theorem declarer_scan_partner_positions {Hand : Type} (seq : List (Call Hand))
    (b : BidNode Hand) (_h : isPassedOut seq = true)
    (_hlast : seq[seq.length - 4]? = some (Call.bid b)) :
    suitBidByPartnerFlag seq b.suit (seq.length - 4) =
      some (suitFirstSpecFrom seq b.suit (((seq.length - 4 : Nat) : Int) - 2)) :=
  suitBidByPartnerFlag_eq_spec seq b.suit (seq.length - 4) (by omega)

/-- The auction `1♥ – Pass – 2♥ – Pass – Pass – Pass`, on which the claimed
scan start `index - 4` and the source's scan start `index - 2` disagree. -/
def scanExampleSeq : List (Call Unit) :=
  [Call.bid (.mk "1h" "one heart" .hearts (fun _ => false) []),
   Call.pass,
   Call.bid (.mk "2h" "two hearts" .hearts (fun _ => false) []),
   Call.pass, Call.pass, Call.pass]

/-- C1 counterexample: on `scanExampleSeq` (pass-out terminal, last real bid
`2h` at `index = 2`), a scan over positions `index - 4, index - 8, …` finds
no call of the contract denomination (it examines no position at all), yet
the source records that the partner bid the suit first and resolves the
contract to the caller of position `index - 2` (North on board 1) instead of
the last bid's own caller (South).  So the claim's scan positions are wrong:
the scan starts at `index - 2`, not `index - 4`. -/
theorem declarer_scan_start_counterexample :
    isPassedOut scanExampleSeq = true ∧
    scanExampleSeq[scanExampleSeq.length - 4]? =
      some (Call.bid (.mk "2h" "two hearts" .hearts (fun _ => false) [])) ∧
    suitFirstSpecFrom scanExampleSeq Suit.hearts
      (((scanExampleSeq.length - 4 : Nat) : Int) - 4) = false ∧
    suitBidByPartnerFlag scanExampleSeq Suit.hearts (scanExampleSeq.length - 4) =
      some true ∧
    getContract 1 scanExampleSeq = Except.ok "2HN" ∧
    bidderAt 1 ((scanExampleSeq.length - 4 : Nat) : Int) = Players.South := by
  refine ⟨by simp [scanExampleSeq, isPassedOut, Call.isPass], rfl, ?_, ?_, ?_, by rfl⟩
  · rw [scanExampleSeq]
    simp only [List.length_cons, List.length_nil]
    norm_num
    rw [suitFirstSpecFrom]
    norm_num
  · rw [scanExampleSeq]
    simp only [List.length_cons, List.length_nil]
    norm_num
    rw [suitBidByPartnerFlag]
    norm_num
    rw [suitFirstLoop]
    rfl
  · rw [getContract]
    rw [if_neg (by simp [scanExampleSeq, isPassedOut, Call.isPass])]
    simp only [scanExampleSeq, List.length_cons, List.length_nil]
    norm_num
    rw [suitBidByPartnerFlag]
    norm_num
    rw [suitFirstLoop]
    rfl

/-- Witness for `declarer_scan_partner_positions` on `scanExampleSeq`. -/
theorem declarer_scan_partner_positions_witness :
    isPassedOut scanExampleSeq = true ∧
    suitBidByPartnerFlag scanExampleSeq
      (BidNode.suit (BidNode.mk "2h" "two hearts" Suit.hearts (fun _ => false) []
        : BidNode Unit))
      (scanExampleSeq.length - 4) =
      some (suitFirstSpecFrom scanExampleSeq
        (BidNode.suit (BidNode.mk "2h" "two hearts" Suit.hearts (fun _ => false) []
          : BidNode Unit))
        (((scanExampleSeq.length - 4 : Nat) : Int) - 2)) :=
  ⟨by simp [scanExampleSeq, isPassedOut, Call.isPass],
   declarer_scan_partner_positions scanExampleSeq _
     (by simp [scanExampleSeq, isPassedOut, Call.isPass]) rfl⟩

/-- C2: on a pass-out-terminal sequence `get_contract` returns `"P"` when the
call at position `length - 4` is Pass, and otherwise the uppercase display
value of that bid concatenated with the seat letter of
`bidder_at(board_number, index - 2)` when the suit was first bid by the
partner and `bidder_at(board_number, index)` otherwise, with
`index = length - 4`. -/
theorem get_contract_result {Hand : Type} (board_number : Nat)
    (seq : List (Call Hand)) (h : isPassedOut seq = true) :
    (seq[seq.length - 4]? = some Call.pass →
      getContract board_number seq = Except.ok "P") ∧
    (∀ b : BidNode Hand, seq[seq.length - 4]? = some (Call.bid b) →
      getContract board_number seq =
        Except.ok (strUpper b.value ++ playerMap (bidderAt board_number
          (if suitFirstSpecFrom seq b.suit (((seq.length - 4 : Nat) : Int) - 2)
           then ((seq.length - 4 : Nat) : Int) - 2
           else ((seq.length - 4 : Nat) : Int))))) :=
  ⟨fun hp => getContract_ok_of_pass board_number seq h hp,
   fun b hb => getContract_ok_of_bid board_number seq b h hb⟩

/-- Witness for `get_contract_result` on a fully passed-out board. -/
theorem get_contract_result_witness :
    isPassedOut ([Call.pass, Call.pass, Call.pass, Call.pass] : List (Call Unit)) = true ∧
    getContract 7 ([Call.pass, Call.pass, Call.pass, Call.pass] : List (Call Unit)) =
      Except.ok "P" :=
  ⟨by rfl, (get_contract_result 7 _ (by rfl)).1 (by rfl)⟩

/-- C7: on a pass-out-terminal sequence, contract resolution stays within the
bounds of the sequence — it reaches a contract and never the out-of-range
outcome, even for the shortest terminal auctions. -/
theorem get_contract_in_bounds {Hand : Type} (board_number : Nat)
    (seq : List (Call Hand)) (h : isPassedOut seq = true) :
    ∃ s : String, getContract board_number seq = Except.ok s := by
  have h4 := isPassedOut_length seq h
  cases hx : seq[seq.length - 4]? with
  | none =>
    have := List.getElem?_eq_none_iff.mp hx
    omega
  | some c =>
    cases c with
    | pass => exact ⟨"P", getContract_ok_of_pass board_number seq h hx⟩
    | bid b => exact ⟨_, getContract_ok_of_bid board_number seq b h hx⟩

/-- Witness for `get_contract_in_bounds` on a shortest non-trivial terminal
auction. -/
theorem get_contract_in_bounds_witness :
    isPassedOut ([Call.bid (.mk "1s" "one spade" .spades (fun _ => false) []),
      Call.pass, Call.pass, Call.pass] : List (Call Unit)) = true ∧
    ∃ s : String,
      getContract 2 ([Call.bid (.mk "1s" "one spade" .spades (fun _ => false) []),
        Call.pass, Call.pass, Call.pass] : List (Call Unit)) = Except.ok s :=
  ⟨by rfl, get_contract_in_bounds 2 _ (by rfl)⟩

/-- C8: requesting contract resolution on a non-terminal sequence fails with
the invalid-state (assertion) error and never returns a contract. -/
theorem get_contract_invalid_state {Hand : Type} (board_number : Nat)
    (seq : List (Call Hand)) (h : isPassedOut seq = false) :
    getContract board_number seq = Except.error "AssertionError" ∧
    ∀ s : String, getContract board_number seq ≠ Except.ok s := by
  have hg : getContract board_number seq = Except.error "AssertionError" := by
    unfold getContract
    rw [if_pos h]
  refine ⟨hg, fun s hs => ?_⟩
  rw [hg] at hs
  exact Except.noConfusion hs

/-- Witness for `get_contract_invalid_state` on the empty auction. -/
theorem get_contract_invalid_state_witness :
    isPassedOut ([] : List (Call Unit)) = false ∧
    getContract 0 ([] : List (Call Unit)) = Except.error "AssertionError" :=
  ⟨by rfl, (get_contract_invalid_state 0 ([] : List (Call Unit)) (by rfl)).1⟩

/-- The legal-bid mapping consulted by `_user_bid`: the root mapping by
default, replaced by the children of `bidding_sequence[-2]` when that call
exists and is not Pass. -/
def userPotentialBids {Hand : Type} (root : List (String × BidNode Hand))
    (seq : List (Call Hand)) : List (String × BidNode Hand) :=
  if 2 ≤ seq.length then
    match seq[seq.length - 2]? with
    | some (Call.bid current_bid) => current_bid.children
    | _ => root
  else root

/-- The filtered candidate list computed by `_program_bid`: `potential_bids`
starts as `None`; when the sequence has at least two calls and
`bidding_sequence[-2]` is a non-trivial bid, the candidates are its accepted
children; when `potential_bids` is still `None`, the accepted root bids. -/
def programPotentialBids {Hand : Type} (root : List (String × BidNode Hand))
    (seq : List (Call Hand)) (current_hand : Hand) : List (BidNode Hand) :=
  let fromPartner : Option (List (BidNode Hand)) :=
    if 2 ≤ seq.length then
      match seq[seq.length - 2]? with
      | some (Call.bid current_bid) =>
        some ((current_bid.children.map Prod.snd).filter
          fun bid => bid.accept current_hand)
      | _ => none
    else none
  match fromPartner with
  | some potential_bids => potential_bids
  | none => (root.map Prod.snd).filter fun bid => bid.accept current_hand

/-- `_program_bid`: choose among the accepted candidates, falling back to
Pass when `choice` raises `IndexError` on the empty list.  `random.choice`
is the engine's sole source of non-determinism; it is injected as `pick`,
which returns `none` exactly on the empty list and otherwise some element
of its argument (the hypotheses of `program_bid_selector`). -/
def programBid {Hand : Type}
    (pick : List (BidNode Hand) → Option (BidNode Hand))
    (root : List (String × BidNode Hand)) (seq : List (Call Hand))
    (current_hand : Hand) : Call Hand :=
  match pick (programPotentialBids root seq current_hand) with
  | some bid => Call.bid bid
  | none => Call.pass

/-- `_program_bid` filters exactly the mapping `_user_bid` offers. -/
theorem programPotentialBids_eq_filter {Hand : Type}
    (root : List (String × BidNode Hand)) (seq : List (Call Hand))
    (current_hand : Hand) :
    programPotentialBids root seq current_hand =
      ((userPotentialBids root seq).map Prod.snd).filter
        fun bid => bid.accept current_hand := by
  unfold programPotentialBids userPotentialBids
  by_cases h2 : 2 ≤ seq.length
  · simp only [if_pos h2]
    cases hx : seq[seq.length - 2]? with
    | none => simp
    | some c => cases c <;> simp
  · simp only [if_neg h2]

/-- C4: the legal-bid set equals the bid-tree root mapping when the sequence
has fewer than 2 calls or the call at position `length - 2` is Pass, and
otherwise the children mapping of that call's node (possibly empty); the
automatic selector draws from the same mapping, filtered by acceptance. -/
theorem legal_bid_resolution {Hand : Type} (root : List (String × BidNode Hand))
    (seq : List (Call Hand)) (current_hand : Hand) :
    ((seq.length < 2 ∨ seq[seq.length - 2]? = some Call.pass) →
      userPotentialBids root seq = root ∧
      programPotentialBids root seq current_hand =
        (root.map Prod.snd).filter (fun bid => bid.accept current_hand)) ∧
    (∀ current_bid : BidNode Hand, 2 ≤ seq.length →
      seq[seq.length - 2]? = some (Call.bid current_bid) →
      userPotentialBids root seq = current_bid.children ∧
      programPotentialBids root seq current_hand =
        (current_bid.children.map Prod.snd).filter
          (fun bid => bid.accept current_hand)) := by
  constructor
  · intro hcase
    have huser : userPotentialBids root seq = root := by
      unfold userPotentialBids
      by_cases h2 : 2 ≤ seq.length
      · have hp : seq[seq.length - 2]? = some Call.pass := by
          rcases hcase with h | h
          · omega
          · exact h
        rw [if_pos h2, hp]
      · rw [if_neg h2]
    rw [programPotentialBids_eq_filter, huser]
    exact ⟨rfl, rfl⟩
  · intro current_bid h2 hb
    have huser : userPotentialBids root seq = current_bid.children := by
      unfold userPotentialBids
      rw [if_pos h2, hb]
    rw [programPotentialBids_eq_filter, huser]
    exact ⟨rfl, rfl⟩

/-- `head?` of a non-empty list is a member: the deterministic `pick`
instance used by the witnesses. -/
theorem head?_mem_of_eq_some {α : Type} (l : List α) (b : α)
    (h : l.head? = some b) : b ∈ l := by
  cases l with
  | nil => exact absurd h (by simp)
  | cons a t =>
    simp only [List.head?_cons, Option.some.injEq] at h
    rw [h] at *
    exact List.mem_cons_self b t

/-- `head?` returns `none` exactly on the empty list. -/
theorem head?_eq_none_iff_nil {α : Type} (l : List α) :
    l.head? = none ↔ l = [] := by
  cases l <;> simp

/-- Witness for `legal_bid_resolution`: the empty sequence resolves to the
root, and a sequence whose call at `length - 2` is a heart opening resolves
to that opening's children. -/
theorem legal_bid_resolution_witness :
    (userPotentialBids
        ([("1c", BidNode.mk "1c" "club opening" Suit.clubs (fun _ => true) [])]
          : List (String × BidNode Unit)) [] =
      [("1c", BidNode.mk "1c" "club opening" Suit.clubs (fun _ => true) [])]) ∧
    (userPotentialBids
        ([("1c", BidNode.mk "1c" "club opening" Suit.clubs (fun _ => true) [])]
          : List (String × BidNode Unit))
        [Call.bid (BidNode.mk "1h" "heart opening" Suit.hearts (fun _ => true)
            [("4h", BidNode.mk "4h" "raise" Suit.hearts (fun _ => true) [])]),
         Call.pass] =
      [("4h", BidNode.mk "4h" "raise" Suit.hearts (fun _ => true) [])]) :=
  ⟨((legal_bid_resolution _ [] ()).1 (Or.inl (by simp))).1,
   ((legal_bid_resolution _ _ ()).2
      (BidNode.mk "1h" "heart opening" Suit.hearts (fun _ => true)
        [("4h", BidNode.mk "4h" "raise" Suit.hearts (fun _ => true) [])])
      (by simp) rfl).1⟩

/-- C5: whenever `pick` models `random.choice` (a member on non-empty lists,
failure exactly on the empty list), the automatic bid selector returns
either Pass or a bid of the applicable mapping accepted by the hand, and it
returns Pass iff no bid of the applicable mapping is accepted. -/
theorem program_bid_selector {Hand : Type}
    (pick : List (BidNode Hand) → Option (BidNode Hand))
    (root : List (String × BidNode Hand)) (seq : List (Call Hand))
    (current_hand : Hand)
    (hmem : ∀ (l : List (BidNode Hand)) (b : BidNode Hand),
      pick l = some b → b ∈ l)
    (hnone : ∀ l : List (BidNode Hand), pick l = none ↔ l = []) :
    (programBid pick root seq current_hand = Call.pass ∨
      ∃ b : BidNode Hand, b ∈ (userPotentialBids root seq).map Prod.snd ∧
        b.accept current_hand = true ∧
        programBid pick root seq current_hand = Call.bid b) ∧
    (programBid pick root seq current_hand = Call.pass ↔
      ∀ b ∈ (userPotentialBids root seq).map Prod.snd,
        b.accept current_hand = false) := by
  have hfil := programPotentialBids_eq_filter root seq current_hand
  unfold programBid
  cases hk : pick (programPotentialBids root seq current_hand) with
  | some b =>
    have hbmem : b ∈ programPotentialBids root seq current_hand := hmem _ b hk
    rw [hfil] at hbmem
    have hacc := List.of_mem_filter hbmem
    have hmem2 := List.mem_of_mem_filter hbmem
    constructor
    · exact Or.inr ⟨b, hmem2, hacc, rfl⟩
    · constructor
      · intro hcontra
        exact absurd hcontra (by simp)
      · intro hall
        have hnil : programPotentialBids root seq current_hand = [] := by
          rw [hfil]
          rw [List.filter_eq_nil_iff]
          intro a ha
          simp [hall a ha]
        rw [(hnone _).mpr hnil] at hk
        exact Option.noConfusion hk
  | none =>
    have hnil := (hnone _).mp hk
    rw [hfil] at hnil
    have hall : ∀ b ∈ (userPotentialBids root seq).map Prod.snd,
        b.accept current_hand = false := by
      intro b hb
      have := List.filter_eq_nil_iff.mp hnil b hb
      simpa using this
    exact ⟨Or.inl rfl, ⟨fun _ => hall, fun _ => rfl⟩⟩

/-- Witness for `program_bid_selector` with the deterministic pick `head?`
on an empty root: the selector is forced to Pass. -/
theorem program_bid_selector_witness :
    (programBid List.head? ([] : List (String × BidNode Unit)) [] () = Call.pass ∨
      ∃ b : BidNode Unit,
        b ∈ (userPotentialBids ([] : List (String × BidNode Unit)) []).map Prod.snd ∧
        b.accept () = true ∧
        programBid List.head? ([] : List (String × BidNode Unit)) [] () = Call.bid b) ∧
    (programBid List.head? ([] : List (String × BidNode Unit)) [] () = Call.pass ↔
      ∀ b ∈ (userPotentialBids ([] : List (String × BidNode Unit)) []).map Prod.snd,
        b.accept () = false) :=
  program_bid_selector List.head? [] [] ()
    (fun l b h => head?_mem_of_eq_some l b h)
    (fun l => head?_eq_none_iff_nil l)

/-- `BiddingProgram.bid`: the turn engine's single step.  The
`assert self._root` is translated as an `AssertionError` outcome on an empty
root; on an already passed-out auction the method returns without appending;
otherwise East and West always pass, South in `Default` mode bids through
the interactive collaborator (injected here as `userBid`, since it performs
input/output), and every other case goes through `_program_bid` on the
current bidder's hand. -/
def bidStep {Hand : Type}
    (pick : List (BidNode Hand) → Option (BidNode Hand)) (userBid : Call Hand)
    (root : List (String × BidNode Hand)) (board_number : Nat)
    (mode : ProgramMode) (hands : Players → Hand) (seq : List (Call Hand)) :
    Except String (List (Call Hand)) :=
  if root.isEmpty then .error "AssertionError"
  else if isPassedOut seq then .ok seq
  else
    let current_bidder := bidderAt board_number (seq.length : Int)
    let next_bid : Call Hand :=
      if current_bidder = Players.East ∨ current_bidder = Players.West then
        Call.pass
      else if current_bidder = Players.South ∧ mode = ProgramMode.Default then
        userBid
      else
        programBid pick root seq (hands current_bidder)
    .ok (seq ++ [next_bid])

/-- C6: with a non-empty bid tree root, a bid step on an already passed-out
auction produces no call and leaves the sequence unchanged; on a
non-terminal auction it appends exactly one call, and that call is Pass
whenever the seat on turn is East or West. -/
theorem bid_step_turn_engine {Hand : Type}
    (pick : List (BidNode Hand) → Option (BidNode Hand)) (userBid : Call Hand)
    (root : List (String × BidNode Hand)) (board_number : Nat)
    (mode : ProgramMode) (hands : Players → Hand) (seq : List (Call Hand))
    (hroot : root ≠ []) :
    (isPassedOut seq = true →
      bidStep pick userBid root board_number mode hands seq = Except.ok seq) ∧
    (isPassedOut seq = false →
      ∃ c : Call Hand,
        bidStep pick userBid root board_number mode hands seq =
          Except.ok (seq ++ [c]) ∧
        ((bidderAt board_number (seq.length : Int) = Players.East ∨
          bidderAt board_number (seq.length : Int) = Players.West) →
          c = Call.pass)) := by
  have hne : root.isEmpty = false := by
    simpa [List.isEmpty_iff] using hroot
  constructor
  · intro hterm
    unfold bidStep
    rw [hne]
    simp [hterm]
  · intro hopen
    unfold bidStep
    rw [hne]
    simp only [Bool.false_eq_true, if_false, hopen]
    by_cases hew : bidderAt board_number (seq.length : Int) = Players.East ∨
        bidderAt board_number (seq.length : Int) = Players.West
    · exact ⟨Call.pass, by rw [if_pos hew], fun _ => rfl⟩
    · refine ⟨if bidderAt board_number (seq.length : Int) = Players.South ∧
          mode = ProgramMode.Default then userBid
        else programBid pick root seq (hands (bidderAt board_number (seq.length : Int))),
        ?_, fun hcontra => absurd hcontra hew⟩
      rw [if_neg hew]

/-- Witness for `bid_step_turn_engine` on board 1 with a one-bid root. -/
theorem bid_step_turn_engine_witness :
    (isPassedOut ([Call.pass, Call.pass, Call.pass, Call.pass] : List (Call Unit)) = true →
      bidStep List.head? Call.pass
        ([("1c", BidNode.mk "1c" "club opening" Suit.clubs (fun _ => true) [])]
          : List (String × BidNode Unit))
        1 ProgramMode.Automatic (fun _ => ())
        [Call.pass, Call.pass, Call.pass, Call.pass] =
        Except.ok [Call.pass, Call.pass, Call.pass, Call.pass]) ∧
    (isPassedOut ([Call.pass, Call.pass, Call.pass, Call.pass] : List (Call Unit)) = false →
      ∃ c : Call Unit,
        bidStep List.head? Call.pass
          ([("1c", BidNode.mk "1c" "club opening" Suit.clubs (fun _ => true) [])]
            : List (String × BidNode Unit))
          1 ProgramMode.Automatic (fun _ => ())
          [Call.pass, Call.pass, Call.pass, Call.pass] =
          Except.ok ([Call.pass, Call.pass, Call.pass, Call.pass] ++ [c]) ∧
        ((bidderAt 1 (([Call.pass, Call.pass, Call.pass, Call.pass]
              : List (Call Unit)).length : Int) = Players.East ∨
          bidderAt 1 (([Call.pass, Call.pass, Call.pass, Call.pass]
              : List (Call Unit)).length : Int) = Players.West) →
          c = Call.pass)) :=
  bid_step_turn_engine List.head? Call.pass _ 1 ProgramMode.Automatic (fun _ => ())
    [Call.pass, Call.pass, Call.pass, Call.pass] (by simp)

/-- Python's `int()` on the single character `contract[0]`: the value of an
ASCII decimal digit, and a `ValueError` (here `none`) on anything else. -/
def charToInt (c : Char) : Option Nat :=
  if c.isDigit then some (c.toNat - 48) else none

/-- `BiddingProgram.get_double_dummy_result` up to its oracle boundary: the
four assertions (length 3, `int(contract[0]) in range(1, 8)`, strain letter,
seat letter) are checked in order and every failure raises a `ValueError`
before the oracle is consulted — either the format error from the caught
`AssertionError`, or the error `int()` itself raises on a non-digit.  The
`.ok` payload is the pair handed to the external double-dummy oracle: the
contract and the declarer-relative vulnerability flag. -/
def getDoubleDummyResult (vul : Vulnerability) (contract : String) :
    Except String (String × Bool) :=
  match contract.data with
  | [c0, c1, c2] =>
    match charToInt c0 with
    | none => .error "ValueError: invalid literal for int()"
    | some level =>
      if 1 ≤ level ∧ level ≤ 7 then
        if c1 = 'C' ∨ c1 = 'D' ∨ c1 = 'H' ∨ c1 = 'S' ∨ c1 = 'N' then
          if c2 = 'N' ∨ c2 = 'E' ∨ c2 = 'S' ∨ c2 = 'W' then
            let vulnerable : Bool :=
              if c2 = 'N' ∨ c2 = 'S' then
                vul == Vulnerability.All || vul == Vulnerability.Unfavourable
              else
                vul == Vulnerability.All || vul == Vulnerability.Favourable
            .ok (contract, vulnerable)
          else .error "ValueError: not a valid contract."
        else .error "ValueError: not a valid contract."
      else .error "ValueError: not a valid contract."
  | _ => .error "ValueError: not a valid contract."

/-- The claim's notion of a well-formed contract string: exactly 3
characters, a level digit in `1..7`, a strain in `{C,D,H,S,N}` and a seat in
`{N,E,S,W}`. -/
def validContract (s : String) : Bool :=
  match s.data with
  | [c0, c1, c2] =>
    (match charToInt c0 with
     | some level => decide (1 ≤ level ∧ level ≤ 7)
     | none => false) &&
    (c1 == 'C' || c1 == 'D' || c1 == 'H' || c1 == 'S' || c1 == 'N') &&
    (c2 == 'N' || c2 == 'E' || c2 == 'S' || c2 == 'W')
  | _ => false

/-- The oracle is only ever reached on a well-formed contract string. -/
theorem getDoubleDummyResult_ok_implies_valid (vul : Vulnerability)
    (s : String) (p : String × Bool)
    (h : getDoubleDummyResult vul s = Except.ok p) : validContract s = true := by
  unfold getDoubleDummyResult at h
  unfold validContract
  cases hd : s.data with
  | nil => rw [hd] at h; exact Except.noConfusion h
  | cons c0 t0 =>
    cases t0 with
    | nil => rw [hd] at h; exact Except.noConfusion h
    | cons c1 t1 =>
      cases t1 with
      | nil => rw [hd] at h; exact Except.noConfusion h
      | cons c2 t2 =>
        cases t2 with
        | cons c3 t3 => rw [hd] at h; exact Except.noConfusion h
        | nil =>
          rw [hd] at h
          simp only at h ⊢
          cases hc : charToInt c0 with
          | none => rw [hc] at h; exact Except.noConfusion h
          | some level =>
            simp only [hc] at h ⊢
            by_cases h1 : 1 ≤ level ∧ level ≤ 7
            · rw [if_pos h1] at h
              by_cases hstrain : c1 = 'C' ∨ c1 = 'D' ∨ c1 = 'H' ∨ c1 = 'S' ∨ c1 = 'N'
              · rw [if_pos hstrain] at h
                by_cases hseat : c2 = 'N' ∨ c2 = 'E' ∨ c2 = 'S' ∨ c2 = 'W'
                · simp [h1]
                  tauto
                · rw [if_neg hseat] at h; exact Except.noConfusion h
              · rw [if_neg hstrain] at h; exact Except.noConfusion h
            · rw [if_neg h1] at h; exact Except.noConfusion h

/-- C9: the double-dummy adapter fails with an error before any oracle call
for every contract string that is not exactly 3 characters with level in
`1..7`, strain in `{C,D,H,S,N}` and seat in `{N,E,S,W}`; in particular it
rejects `"8NS"` and `"3XN"` and accepts `"3NN"`. -/
theorem dd_contract_validation :
    (∀ (vul : Vulnerability) (s : String), validContract s = false →
      ∃ e : String, getDoubleDummyResult vul s = Except.error e) ∧
    (∀ vul : Vulnerability,
      (∃ e : String, getDoubleDummyResult vul "8NS" = Except.error e) ∧
      (∃ e : String, getDoubleDummyResult vul "3XN" = Except.error e) ∧
      ∃ p : String × Bool, getDoubleDummyResult vul "3NN" = Except.ok p) := by
  constructor
  · intro vul s hv
    cases hres : getDoubleDummyResult vul s with
    | error e => exact ⟨e, rfl⟩
    | ok p =>
      rw [getDoubleDummyResult_ok_implies_valid vul s p hres] at hv
      exact Bool.noConfusion hv
  · intro vul
    refine ⟨⟨"ValueError: not a valid contract.", ?_⟩,
            ⟨"ValueError: not a valid contract.", ?_⟩,
            ⟨("3NN", vul == Vulnerability.All || vul == Vulnerability.Unfavourable), ?_⟩⟩
    · rfl
    · rfl
    · rfl

/-- Witness for `dd_contract_validation` at the empty string and the three
concrete contracts of the claim. -/
theorem dd_contract_validation_witness :
    validContract "" = false ∧
    (∃ e : String, getDoubleDummyResult Vulnerability.None_ "" = Except.error e) ∧
    (∃ e : String, getDoubleDummyResult Vulnerability.None_ "8NS" = Except.error e) ∧
    (∃ e : String, getDoubleDummyResult Vulnerability.None_ "3XN" = Except.error e) ∧
    ∃ p : String × Bool, getDoubleDummyResult Vulnerability.None_ "3NN" = Except.ok p :=
  ⟨rfl,
   dd_contract_validation.1 Vulnerability.None_ "" rfl,
   (dd_contract_validation.2 Vulnerability.None_).1,
   (dd_contract_validation.2 Vulnerability.None_).2.1,
   (dd_contract_validation.2 Vulnerability.None_).2.2⟩
